import Mathlib

/-!
Verification development for the Hong Kong stock portfolio analysis scripts.

The embedding below translates the core of `hk_stock_analysis_docker.py`
(the transaction-ledger loader `load_and_process_portfolio` and the
cost-basis and return reconstructor `calculate_performance_from_entries`),
together with the loader variant of `hk_stock_analysis_server.py`.

Modelling conventions:
- dates are natural numbers (the code only compares dates with `<=` and `>=`);
- quantities, prices and costs are rationals (the Python floats, modelled
  with exact arithmetic);
- a Python division whose divisor could be zero is modelled with `safeDiv`
  returning `Option`, mirroring `ZeroDivisionError`; divisions that sit
  under an explicit `> 0` guard in the source are additionally given
  checked variants so that the guard can be proved sufficient;
- `pandas.sort_values('Date')` is modelled as a stable insertion sort by
  date (ties keep input order);
- the Python variable `pct_changes`, which is assigned only inside the
  per-instrument loop body and read unconditionally, is modelled as an
  explicitly threaded `Option` state (`none` models "not yet assigned",
  reading it then raises `NameError`).
-/

namespace StockAnalysis

/-- Transaction type: the code only acts on rows whose `Type` column is
the string `Buy` or `Sell`. -/
inductive TxType
  | buy
  | sell
deriving DecidableEq

/-- One row of `all_transactions`: date, type, transacted units and
transacted price per unit, as stored by `load_and_process_portfolio`. -/
structure Transaction where
  date : ℕ
  ty : TxType
  units : ℚ
  price : ℚ
deriving DecidableEq

/-- A date-indexed series of rationals: used both for the per-instrument
price series and for the produced `pct_changes` trajectory. -/
abbrev Series := List (ℕ × ℚ)

/-- Test for a `Buy` row, as in `all_transactions['Type'] == 'Buy'`. -/
def isBuy (t : Transaction) : Bool :=
  match t.ty with
  | TxType.buy => true
  | TxType.sell => false

/-- Stable insertion of a transaction into a date-sorted list: the new
element goes before later elements carrying the same date. -/
def insertByDate (t : Transaction) : List Transaction → List Transaction
  | [] => [t]
  | x :: xs => if t.date ≤ x.date then t :: x :: xs else x :: insertByDate t xs

/-- Stable sort by date, modelling `sort_values('Date')` (tie-break is
input order). -/
def sortByDate : List Transaction → List Transaction
  | [] => []
  | t :: ts => insertByDate t (sortByDate ts)

/-- One replay step on the state `(total_cost, units)`, lines 207-219 of
`hk_stock_analysis_docker.py`: a buy adds `units * price` to the cost and
`units` to the position; a sell, only when the held units are strictly
positive, removes cost proportionally (`cost_per_unit * qty`) and
subtracts the sold quantity. -/
def applyTx (s : ℚ × ℚ) (t : Transaction) : ℚ × ℚ :=
  match t.ty with
  | TxType.buy => (s.1 + t.units * t.price, s.2 + t.units)
  | TxType.sell =>
    if 0 < s.2 then (s.1 - s.1 / s.2 * t.units, s.2 - t.units) else s

/-- Replay a transaction list from the empty position `(0, 0)`. -/
def replay (txs : List Transaction) : ℚ × ℚ :=
  txs.foldl applyTx (0, 0)

/-- Division as Python performs it: raises (here: `none`) when the
divisor is zero. -/
def safeDiv (a b : ℚ) : Option ℚ :=
  if b = 0 then none else some (a / b)

/-- `applyTx` with the sell-branch division `total_cost / units` made
fallible, to show the `units > 0` guard protects it. -/
def applyTxChecked (s : ℚ × ℚ) (t : Transaction) : Option (ℚ × ℚ) :=
  match t.ty with
  | TxType.buy => some (s.1 + t.units * t.price, s.2 + t.units)
  | TxType.sell =>
    if 0 < s.2 then
      (safeDiv s.1 s.2).map (fun cpu => (s.1 - cpu * t.units, s.2 - t.units))
    else
      some s

/-- Checked replay: `none` would mean a `ZeroDivisionError` inside the
transaction replay. -/
def replayChecked (txs : List Transaction) : Option (ℚ × ℚ) :=
  txs.foldlM applyTxChecked (0, 0)

/-- The return-capping of lines 227-230: returns above 1000 percent are
capped, returns below -100 percent are floored. -/
def clampRet (r : ℚ) : ℚ :=
  if 1000 < r then 1000 else if r < -100 then -100 else r

/-- Transactions dated on or before `d`, sorted by date — the
`transactions_up_to_date` DataFrame of lines 199-201. -/
def txUpTo (txs : List Transaction) (d : ℕ) : List Transaction :=
  sortByDate (txs.filter (fun t => t.date ≤ d))

/-- The replayed position `(temp_cost, temp_units)` as of date `d`. -/
def positionAt (txs : List Transaction) (d : ℕ) : ℚ × ℚ :=
  replay (txUpTo txs d)

/-- The per-date loop of lines 197-237 building `performance_series`
(kept together with its date index): on a date with positive replayed
units, append the clamped return `(price - avg_cost) / avg_cost * 100`;
on other dates append `0.0`, but only when the series is already
non-empty.  The division by `current_avg_cost` is unguarded in the
source, so it is modelled with `safeDiv`; `none` models a
`ZeroDivisionError` escaping the function. -/
def buildSeries (txs : List Transaction) : Series → Series → Option Series
  | acc, [] => some acc
  | acc, (d, p) :: rest =>
    let s := positionAt txs d
    if 0 < s.2 then
      match safeDiv (p - s.1 / s.2) (s.1 / s.2) with
      | none => none
      | some x => buildSeries txs (acc ++ [(d, clampRet (x * 100))]) rest
    else
      if acc.isEmpty then buildSeries txs acc rest
      else buildSeries txs (acc ++ [(d, (0 : ℚ))]) rest

/-- `pct_changes.iloc[0] = 0.0` (line 243): overwrite the value of the
first point, keeping its date. -/
def forceFirst : Series → Series
  | [] => []
  | (d, _) :: rest => (d, 0) :: rest

/-- `buy_transactions.iloc[0]['Date']` (lines 185-187): the date of the
first `Buy` row in input order — the rows are not sorted first. -/
def firstBuyDateOpt (txs : List Transaction) : Option ℕ :=
  ((txs.filter isBuy).head?).map Transaction.date

/-- `entry_prices` (line 190): the price series restricted to dates on or
after the first entry date; empty when there is no buy at all. -/
def entryPricesOf (txs : List Transaction) (prices : Series) : Series :=
  match firstBuyDateOpt txs with
  | none => []
  | some d => prices.filter (fun dp => d ≤ dp.1)

/-- The final full-history replay of lines 246-266 giving
`weighted_avg_cost = running_cost / running_units if running_units > 0
else 0`. -/
def weightedAvgCost (txs : List Transaction) : ℚ :=
  let fin := replay (sortByDate txs)
  if 0 < fin.2 then fin.1 / fin.2 else 0

/-- `running_units` after the final full-history replay. -/
def finalUnits (txs : List Transaction) : ℚ :=
  (replay (sortByDate txs)).2

/-- Lines 270-273: `current_pct_change`, guarded by
`weighted_avg_cost > 0`, otherwise `0`.  Never clamped. -/
def currentPctChange (txs : List Transaction) (cur : ℚ) : ℚ :=
  if 0 < weightedAvgCost txs then
    (cur - weightedAvgCost txs) / weightedAvgCost txs * 100
  else 0

/-- Checked variant of `weightedAvgCost` with its division fallible. -/
def wacChecked (txs : List Transaction) : Option ℚ :=
  let fin := replay (sortByDate txs)
  if 0 < fin.2 then safeDiv fin.1 fin.2 else some 0

/-- Checked variant of `currentPctChange` with its division fallible. -/
def currentPctChecked (txs : List Transaction) (cur : ℚ) : Option ℚ :=
  if 0 < weightedAvgCost txs then
    (safeDiv (cur - weightedAvgCost txs) (weightedAvgCost txs)).map
      (fun r => r * 100)
  else some 0

/-- The per-instrument dictionary stored into `performance_data`
(lines 275-284). -/
structure Record where
  entry_price : ℚ
  current_price : ℚ
  pct_change : ℚ
  units : ℚ
  entry_date : ℕ
  historical : Series
  unrealized_pnl : ℚ
deriving DecidableEq

/-- Unhandled Python exceptions that `calculate_performance_from_entries`
can raise: the unguarded return division, and reading `pct_changes`
before any assignment. -/
inductive PyError
  | zeroDivisionError
  | nameError
deriving DecidableEq

/-- The body of the per-instrument loop of
`calculate_performance_from_entries` for one instrument, with the
`pct_changes` variable threaded explicitly as `carried`.  Returns the
optional record together with the value of `pct_changes` after the
iteration. -/
def processStock (carried : Option Series) (txs : List Transaction)
    (prices : Series) : Except PyError (Option Record × Option Series) :=
  if prices.isEmpty || txs.isEmpty then Except.ok (none, carried)
  else
    match firstBuyDateOpt txs with
    | none => Except.ok (none, carried)
    | some entryDate =>
      if (entryPricesOf txs prices).isEmpty then Except.ok (none, carried)
      else
        match buildSeries txs [] (entryPricesOf txs prices) with
        | none => Except.error PyError.zeroDivisionError
        | some ser =>
          match (if ser.isEmpty then carried else some (forceFirst ser)) with
          | none => Except.error PyError.nameError
          | some traj =>
            Except.ok (some {
              entry_price := weightedAvgCost txs
              current_price := (prices.getLastD (0, 0)).2
              pct_change := currentPctChange txs (prices.getLastD (0, 0)).2
              units := finalUnits txs
              entry_date := entryDate
              historical := traj
              unrealized_pnl :=
                ((prices.getLastD (0, 0)).2 - weightedAvgCost txs)
                  * finalUnits txs }, some traj)

/-- The loop over `stock_transactions.items()` (line 178): skip
instruments absent from the price data's columns, thread the
`pct_changes` state, and collect the produced records in order. -/
def calcPerfGo (priceData : String → Option Series) (carried : Option Series)
    (acc : List (String × Record)) :
    List (String × List Transaction) → Except PyError (List (String × Record))
  | [] => Except.ok acc
  | (code, txs) :: rest =>
    match priceData code with
    | none => calcPerfGo priceData carried acc rest
    | some prices =>
      match processStock carried txs prices with
      | Except.error e => Except.error e
      | Except.ok (none, c) => calcPerfGo priceData c acc rest
      | Except.ok (some r, c) =>
        calcPerfGo priceData c (acc ++ [(code, r)]) rest

/-- `calculate_performance_from_entries`: stocks in insertion order, the
price data as a partial map from stock code to its (already `dropna`-ed)
price series. -/
def calcPerf (stocks : List (String × List Transaction))
    (priceData : String → Option Series) :
    Except PyError (List (String × Record)) :=
  calcPerfGo priceData none [] stocks

/-- One step of the `current_units` accumulation in the docker variant's
`load_and_process_portfolio` (lines 109-116): buys with positive units
add; sells deliberately do not subtract. -/
def dockerUnitsStep (u : ℚ) (t : Transaction) : ℚ :=
  if t.ty = TxType.buy ∧ 0 < t.units then u + t.units else u

/-- `current_units` of the docker loader after processing the full list. -/
def dockerCurrentUnits (txs : List Transaction) : ℚ :=
  txs.foldl dockerUnitsStep 0

/-- One step of the `current_units` accumulation in the server variant's
`load_and_process_portfolio` (lines 103-109 of
`hk_stock_analysis_server.py`): buys add, sells subtract. -/
def serverUnitsStep (u : ℚ) (t : Transaction) : ℚ :=
  if t.ty = TxType.buy ∧ 0 < t.units then u + t.units
  else if t.ty = TxType.sell ∧ 0 < t.units then u - t.units
  else u

/-- `current_units` of the server loader after processing the full list. -/
def serverCurrentUnits (txs : List Transaction) : ℚ :=
  txs.foldl serverUnitsStep 0

/-- The docker loader keeps an instrument iff `current_units > 0`
(line 121). -/
def keepsDocker (txs : List Transaction) : Prop :=
  0 < dockerCurrentUnits txs

/-- The server loader keeps an instrument iff `current_units > 0`. -/
def keepsServer (txs : List Transaction) : Prop :=
  0 < serverCurrentUnits txs

/-- Sum of the units of the positive-quantity buy rows. -/
def posBuyUnits (txs : List Transaction) : ℚ :=
  (txs.map (fun t => if t.ty = TxType.buy ∧ 0 < t.units then t.units else 0)).sum

/-- Sum of the units of the positive-quantity sell rows. -/
def posSellUnits (txs : List Transaction) : ℚ :=
  (txs.map (fun t => if t.ty = TxType.sell ∧ 0 < t.units then t.units else 0)).sum

/-- The net position in the sense of the specification: sum of buy
quantities minus sum of sell quantities, raw. -/
def netPosition (txs : List Transaction) : ℚ :=
  (txs.map (fun t =>
    match t.ty with
    | TxType.buy => t.units
    | TxType.sell => -t.units)).sum

/-- Chronologically earliest buy date, if any buy exists. -/
def minBuyDate (txs : List Transaction) : Option ℕ :=
  match (txs.filter isBuy).map Transaction.date with
  | [] => none
  | d :: ds => some (ds.foldl Nat.min d)

/-- Projection: the trajectory of a produced record, if the outcome is a
record. -/
def recordTraj (r : Except PyError (Option Record × Option Series)) :
    Option Series :=
  match r with
  | Except.ok (some rec, _) => some rec.historical
  | _ => none

/-- Projection: the entry date of a produced record. -/
def recordEntry (r : Except PyError (Option Record × Option Series)) :
    Option ℕ :=
  match r with
  | Except.ok (some rec, _) => some rec.entry_date
  | _ => none

/-- Projection: the `current_pct_change` of a produced record. -/
def recordPct (r : Except PyError (Option Record × Option Series)) :
    Option ℚ :=
  match r with
  | Except.ok (some rec, _) => some rec.pct_change
  | _ => none

/-! ### Helper lemmas -/

@[simp] lemma sell_ne_buy : ¬ (TxType.sell = TxType.buy) := by
  intro h; exact TxType.noConfusion h

@[simp] lemma buy_ne_sell : ¬ (TxType.buy = TxType.sell) := by
  intro h; exact TxType.noConfusion h

lemma safeDiv_of_pos (a b : ℚ) (h : 0 < b) : safeDiv a b = some (a / b) := by
  simp [safeDiv, ne_of_gt h]

lemma applyTxChecked_eq (s : ℚ × ℚ) (t : Transaction) :
    applyTxChecked s t = some (applyTx s t) := by
  cases h : t.ty with
  | buy => simp [applyTxChecked, applyTx, h]
  | sell =>
    by_cases hs : 0 < s.2
    · simp [applyTxChecked, applyTx, h, hs, safeDiv_of_pos s.1 s.2 hs]
    · simp [applyTxChecked, applyTx, h, hs]

lemma foldlM_applyTxChecked (txs : List Transaction) :
    ∀ s : ℚ × ℚ, List.foldlM applyTxChecked s txs = some (List.foldl applyTx s txs) := by
  induction txs with
  | nil => intro s; rfl
  | cons t ts ih =>
    intro s
    rw [List.foldlM_cons, applyTxChecked_eq]
    simpa using ih (applyTx s t)

/-! ### C1: replay state after an oversell, and absence of division
errors in the replay -/

/-- Concrete transaction list with a sell whose quantity exceeds the
units held immediately before it. -/
def txsOversell : List Transaction :=
  [⟨0, TxType.buy, 10, 1⟩, ⟨1, TxType.sell, 20, 1⟩]

/-- C1 counterexample: replaying `Buy 10@1` then `Sell 20@1` (a sell
exceeding the held units) drives the accumulated state to
`total_cost = -10` and `units = -10`, so the replay does NOT maintain
`total_cost ≥ 0` and `units ≥ 0`. -/
theorem C1_counterexample_oversell_negative :
    replay (sortByDate txsOversell) = (-10, -10) ∧
    (replay (sortByDate txsOversell)).1 < 0 ∧
    (replay (sortByDate txsOversell)).2 < 0 := by
  have h : replay (sortByDate txsOversell) = (-10, -10) := by
    norm_num [replay, sortByDate, txsOversell, insertByDate, applyTx]
  refine ⟨h, ?_, ?_⟩ <;> rw [h] <;> norm_num

/-- C1 (amended): the replay never performs a division with a zero
divisor — the sell division `total_cost / units` is guarded by
`units > 0` — and a sell arriving when `units ≤ 0` leaves the state
unchanged (treated as no position); the state itself is however not kept
non-negative after an oversell. -/
theorem C1_amended_no_division_error :
    (∀ txs : List Transaction, replayChecked txs = some (replay txs)) ∧
    (∀ (s : ℚ × ℚ) (t : Transaction),
      t.ty = TxType.sell → s.2 ≤ 0 → applyTx s t = s) := by
  constructor
  · intro txs
    exact foldlM_applyTxChecked txs (0, 0)
  · intro s t hty hs
    simp [applyTx, hty, not_lt.mpr hs]

/-- Witness for the amended C1 at concrete inputs. -/
theorem C1_amended_witness :
    replayChecked txsOversell = some (replay txsOversell) ∧
    applyTx (5, 0) ⟨3, TxType.sell, 7, 2⟩ = (5, 0) := by
  refine ⟨C1_amended_no_division_error.1 txsOversell, ?_⟩
  exact C1_amended_no_division_error.2 (5, 0) ⟨3, TxType.sell, 7, 2⟩ rfl le_rfl

/-! ### C2: proportional sell preserves the average cost -/

/-- C2: on a position with `0 < units`, `0 ≤ total_cost`, a sell of
quantity `q` with `0 < q < units` rescales both components by
`(units - q) / units` and leaves the average cost `total_cost / units`
unchanged. -/
theorem C2_proportional_sell (c u q p : ℚ) (d : ℕ)
    (hu : 0 < u) (hc : 0 ≤ c) (hq : 0 < q) (hqu : q < u) :
    applyTx (c, u) ⟨d, TxType.sell, q, p⟩ = (c * ((u - q) / u), u - q) ∧
    (c * ((u - q) / u)) / (u - q) = c / u := by
  have hu0 : u ≠ 0 := ne_of_gt hu
  have huq : u - q ≠ 0 := ne_of_gt (by linarith)
  constructor
  · simp only [applyTx, hu, if_true]
    refine Prod.ext ?_ rfl
    field_simp
    ring
  · field_simp
    ring

/-- Witness for C2: selling 50 units of a 100-unit position with cost
basis 1000 yields `total_cost = 500`, `units = 50`, average cost still
`10`. -/
theorem C2_proportional_sell_witness :
    applyTx (1000, 100) ⟨3, TxType.sell, 50, 12⟩ = (500, 50) ∧
    ((500 : ℚ) / 50 = 1000 / 100) := by
  have h := C2_proportional_sell 1000 100 50 12 3 (by norm_num) (by norm_num)
    (by norm_num) (by norm_num)
  constructor
  · rw [h.1]; norm_num
  · norm_num

/-! ### C6: which instruments the loaders keep -/

lemma dockerFold (txs : List Transaction) :
    ∀ u : ℚ, txs.foldl dockerUnitsStep u = u + posBuyUnits txs := by
  induction txs with
  | nil => intro u; simp [posBuyUnits]
  | cons t ts ih =>
    intro u
    by_cases h : t.ty = TxType.buy ∧ 0 < t.units
    · have hstep : dockerUnitsStep u t = u + t.units := by
        simp [dockerUnitsStep, h]
      simp only [List.foldl_cons, hstep, ih, posBuyUnits, List.map_cons,
        List.sum_cons, if_pos h]
      ring
    · have hstep : dockerUnitsStep u t = u := by
        simp [dockerUnitsStep, h]
      simp only [List.foldl_cons, hstep, ih, posBuyUnits, List.map_cons,
        List.sum_cons, if_neg h]
      ring

lemma serverFold (txs : List Transaction) :
    ∀ u : ℚ, txs.foldl serverUnitsStep u =
      u + (posBuyUnits txs - posSellUnits txs) := by
  induction txs with
  | nil => intro u; simp [posBuyUnits, posSellUnits]
  | cons t ts ih =>
    intro u
    by_cases hb : t.ty = TxType.buy ∧ 0 < t.units
    · have hns : ¬ (t.ty = TxType.sell ∧ 0 < t.units) := by
        rintro ⟨hs, -⟩; rw [hb.1] at hs; exact TxType.noConfusion hs
      have hstep : serverUnitsStep u t = u + t.units := by
        simp [serverUnitsStep, hb]
      simp only [List.foldl_cons, hstep, ih, posBuyUnits, posSellUnits,
        List.map_cons, List.sum_cons, if_pos hb, if_neg hns]
      ring
    · by_cases hs : t.ty = TxType.sell ∧ 0 < t.units
      · have hstep : serverUnitsStep u t = u - t.units := by
          simp [serverUnitsStep, hb, hs]
        simp only [List.foldl_cons, hstep, ih, posBuyUnits, posSellUnits,
          List.map_cons, List.sum_cons, if_neg hb, if_pos hs]
        ring
      · have hstep : serverUnitsStep u t = u := by
          simp [serverUnitsStep, hb, hs]
        simp only [List.foldl_cons, hstep, ih, posBuyUnits, posSellUnits,
          List.map_cons, List.sum_cons, if_neg hb, if_neg hs]
        ring

/-- Concrete instrument whose sells fully offset its buys. -/
def txsNetZero : List Transaction :=
  [⟨0, TxType.buy, 100, 10⟩, ⟨1, TxType.sell, 100, 12⟩]

/-- C6 counterexample: an instrument with `Buy 100` and `Sell 100` has
net position `0` (not strictly positive), yet the docker loader's
accumulated `current_units` is `100`, so the instrument IS kept and does
reach the reconstructor. -/
theorem C6_counterexample_docker_keeps_net_zero :
    netPosition txsNetZero = 0 ∧
    dockerCurrentUnits txsNetZero = 100 ∧
    keepsDocker txsNetZero := by
  refine ⟨?_, ?_, ?_⟩
  · norm_num [netPosition, txsNetZero]
  · norm_num [dockerCurrentUnits, dockerUnitsStep, txsNetZero]
  · show 0 < dockerCurrentUnits txsNetZero
    norm_num [dockerCurrentUnits, dockerUnitsStep, txsNetZero]

/-- C6 (amended): the docker loader keeps an instrument iff the sum of
its positive-quantity buy units is strictly positive — sells are not
subtracted there — while the server-variant loader keeps an instrument
iff buys minus sells (over positive-quantity rows) is strictly
positive. -/
theorem C6_amended_filter (txs : List Transaction) :
    dockerCurrentUnits txs = posBuyUnits txs ∧
    serverCurrentUnits txs = posBuyUnits txs - posSellUnits txs ∧
    (keepsDocker txs ↔ 0 < posBuyUnits txs) ∧
    (keepsServer txs ↔ 0 < posBuyUnits txs - posSellUnits txs) := by
  have hd : dockerCurrentUnits txs = posBuyUnits txs := by
    have := dockerFold txs 0
    simpa [dockerCurrentUnits] using this
  have hs : serverCurrentUnits txs = posBuyUnits txs - posSellUnits txs := by
    have := serverFold txs 0
    simpa [serverCurrentUnits] using this
  exact ⟨hd, hs, by rw [keepsDocker, hd], by rw [keepsServer, hs]⟩

/-! ### C8: the guarded divisions never divide by zero -/

/-- C8: for every transaction list and current price, all the divisions
guarded by a strict-positivity test — the sell division of the replay,
the `weighted_avg_cost` division, and the `current_pct_change`
division — succeed: the checked computations return exactly the values
of the unchecked ones, and in particular never a `ZeroDivisionError`. -/
theorem C8_no_zero_division_in_guarded (txs : List Transaction) (cur : ℚ) :
    replayChecked (sortByDate txs) = some (replay (sortByDate txs)) ∧
    wacChecked txs = some (weightedAvgCost txs) ∧
    currentPctChecked txs cur = some (currentPctChange txs cur) := by
  refine ⟨foldlM_applyTxChecked (sortByDate txs) (0, 0), ?_, ?_⟩
  · by_cases h : 0 < (replay (sortByDate txs)).2
    · simp [wacChecked, weightedAvgCost, h, safeDiv_of_pos _ _ h]
    · simp [wacChecked, weightedAvgCost, h]
  · by_cases h : 0 < weightedAvgCost txs
    · simp [currentPctChecked, currentPctChange, h, safeDiv_of_pos _ _ h]
    · simp [currentPctChecked, currentPctChange, h]

/-! ### Trajectory invariants: machinery for C3 and C4 -/

lemma clampRet_mem (r : ℚ) : -100 ≤ clampRet r ∧ clampRet r ≤ 1000 := by
  unfold clampRet
  split_ifs with h1 h2 <;> constructor <;> linarith

lemma buildSeries_inRange (txs : List Transaction) :
    ∀ (dates acc : Series) (ser : Series),
      buildSeries txs acc dates = some ser →
      (∀ dp ∈ acc, -100 ≤ dp.2 ∧ dp.2 ≤ 1000) →
      ∀ dp ∈ ser, -100 ≤ dp.2 ∧ dp.2 ≤ 1000 := by
  intro dates
  induction dates with
  | nil =>
    intro acc ser h hacc
    simp only [buildSeries, Option.some.injEq] at h
    exact h ▸ hacc
  | cons dp0 rest ih =>
    intro acc ser h hacc
    obtain ⟨d, p⟩ := dp0
    simp only [buildSeries] at h
    split at h
    · split at h
      · exact absurd h (by simp)
      · next x hx =>
        refine ih _ _ h ?_
        intro dp hdp
        rcases List.mem_append.mp hdp with hmem | hmem
        · exact hacc dp hmem
        · have : dp = (d, clampRet (x * 100)) := List.mem_singleton.mp hmem
          rw [this]
          exact clampRet_mem (x * 100)
    · split at h
      · exact ih _ _ h hacc
      · refine ih _ _ h ?_
        intro dp hdp
        rcases List.mem_append.mp hdp with hmem | hmem
        · exact hacc dp hmem
        · have : dp = (d, (0 : ℚ)) := List.mem_singleton.mp hmem
          rw [this]
          norm_num

lemma buildSeries_unitsOrZero (txs : List Transaction) :
    ∀ (dates acc : Series) (ser : Series),
      buildSeries txs acc dates = some ser →
      (∀ dp ∈ acc, 0 < (positionAt txs dp.1).2 ∨ dp.2 = 0) →
      ∀ dp ∈ ser, 0 < (positionAt txs dp.1).2 ∨ dp.2 = 0 := by
  intro dates
  induction dates with
  | nil =>
    intro acc ser h hacc
    simp only [buildSeries, Option.some.injEq] at h
    exact h ▸ hacc
  | cons dp0 rest ih =>
    intro acc ser h hacc
    obtain ⟨d, p⟩ := dp0
    simp only [buildSeries] at h
    split at h
    · next hpos =>
      split at h
      · exact absurd h (by simp)
      · next x hx =>
        refine ih _ _ h ?_
        intro dp hdp
        rcases List.mem_append.mp hdp with hmem | hmem
        · exact hacc dp hmem
        · have heq : dp = (d, clampRet (x * 100)) := List.mem_singleton.mp hmem
          left
          rw [heq]
          exact hpos
    · split at h
      · exact ih _ _ h hacc
      · refine ih _ _ h ?_
        intro dp hdp
        rcases List.mem_append.mp hdp with hmem | hmem
        · exact hacc dp hmem
        · have heq : dp = (d, (0 : ℚ)) := List.mem_singleton.mp hmem
          right
          rw [heq]

lemma forceFirst_inRange (s : Series)
    (h : ∀ dp ∈ s, -100 ≤ dp.2 ∧ dp.2 ≤ 1000) :
    ∀ dp ∈ forceFirst s, -100 ≤ dp.2 ∧ dp.2 ≤ 1000 := by
  cases s with
  | nil => simp [forceFirst]
  | cons hd tl =>
    obtain ⟨d, p⟩ := hd
    intro dp hdp
    simp only [forceFirst, List.mem_cons] at hdp
    rcases hdp with h1 | h2
    · rw [h1]; norm_num
    · exact h dp (List.mem_cons_of_mem _ h2)

lemma forceFirst_headZero (s : Series) :
    forceFirst s ≠ [] → ((forceFirst s).headD ((0 : ℕ), (1 : ℚ))).2 = 0 := by
  cases s with
  | nil => intro h; exact absurd rfl h
  | cons hd tl =>
    obtain ⟨d, p⟩ := hd
    intro _
    rfl

/-- Preservation of a trajectory property through one instrument: if the
property holds of every forced freshly-built series and of the carried
`pct_changes`, it holds of the out-going state and of the produced
record's trajectory. -/
lemma processStock_preserves (P : Series → Prop)
    (carried : Option Series) (txs : List Transaction) (prices : Series)
    (ro : Option Record) (c : Option Series)
    (hP : ∀ ser, buildSeries txs [] (entryPricesOf txs prices) = some ser →
      P (forceFirst ser))
    (hc : ∀ t, carried = some t → P t)
    (h : processStock carried txs prices = Except.ok (ro, c)) :
    (∀ t, c = some t → P t) ∧ (∀ rec, ro = some rec → P rec.historical) := by
  unfold processStock at h
  split at h
  · injection h with h'
    injection h' with h1 h2
    subst h1; subst h2
    exact ⟨hc, by intro rec hrec; exact absurd hrec (by simp)⟩
  · split at h
    · injection h with h'
      injection h' with h1 h2
      subst h1; subst h2
      exact ⟨hc, by intro rec hrec; exact absurd hrec (by simp)⟩
    · next entryDate _ =>
      split at h
      · injection h with h'
        injection h' with h1 h2
        subst h1; subst h2
        exact ⟨hc, by intro rec hrec; exact absurd hrec (by simp)⟩
      · split at h
        · exact absurd h (by simp)
        · next ser hser =>
          split at h
          · exact absurd h (by simp)
          · next traj htraj =>
            injection h with h'
            injection h' with h1 h2
            subst h1; subst h2
            have hPtraj : P traj := by
              by_cases hemp : ser.isEmpty
              · rw [if_pos hemp] at htraj
                exact hc traj htraj
              · rw [if_neg hemp] at htraj
                injection htraj with htraj'
                rw [← htraj']
                exact hP ser hser
            constructor
            · intro t ht
              injection ht with ht'
              rw [← ht']
              exact hPtraj
            · intro rec hrec
              injection hrec with hrec'
              rw [← hrec']
              exact hPtraj

/-- Preservation of a trajectory property through the whole instrument
loop. -/
lemma calcPerfGo_preserves (P : Series → Prop)
    (hP : ∀ (txs : List Transaction) (prices : Series) (ser : Series),
      buildSeries txs [] (entryPricesOf txs prices) = some ser →
      P (forceFirst ser))
    (pd : String → Option Series) :
    ∀ (stocks : List (String × List Transaction)) (carried : Option Series)
      (acc res : List (String × Record)),
      (∀ t, carried = some t → P t) →
      (∀ cr ∈ acc, P cr.2.historical) →
      calcPerfGo pd carried acc stocks = Except.ok res →
      ∀ cr ∈ res, P cr.2.historical := by
  intro stocks
  induction stocks with
  | nil =>
    intro carried acc res hcar hacc h
    simp only [calcPerfGo, Except.ok.injEq] at h
    exact h ▸ hacc
  | cons st rest ih =>
    intro carried acc res hcar hacc h
    obtain ⟨code, txs⟩ := st
    cases hpd : pd code with
    | none =>
      simp only [calcPerfGo, hpd] at h
      exact ih carried acc res hcar hacc h
    | some prices =>
      cases hps : processStock carried txs prices with
      | error e =>
        simp only [calcPerfGo, hpd, hps] at h
        exact absurd h (by simp)
      | ok rc =>
        obtain ⟨ro, c⟩ := rc
        have hpres := processStock_preserves P carried txs prices ro c
          (hP txs prices) hcar hps
        cases ro with
        | none =>
          simp only [calcPerfGo, hpd, hps] at h
          exact ih c acc res hpres.1 hacc h
        | some r =>
          simp only [calcPerfGo, hpd, hps] at h
          refine ih c (acc ++ [(code, r)]) res hpres.1 ?_ h
          intro cr hcr
          rcases List.mem_append.mp hcr with hmem | hmem
          · exact hacc cr hmem
          · have : cr = (code, r) := List.mem_singleton.mp hmem
            rw [this]
            exact hpres.2 r rfl

/-! ### C3 and C4 -/

/-- C3: every record produced by the reconstructor whose trajectory is
non-empty has `0.0` as the percentage return of its first trajectory
point. -/
theorem C3_first_point_zero (stocks : List (String × List Transaction))
    (pd : String → Option Series) (res : List (String × Record))
    (code : String) (rec : Record)
    (h : calcPerf stocks pd = Except.ok res) (hmem : (code, rec) ∈ res)
    (hne : rec.historical ≠ []) :
    (rec.historical.headD ((0 : ℕ), (1 : ℚ))).2 = 0 := by
  have hall := calcPerfGo_preserves
    (fun s => s ≠ [] → (s.headD ((0 : ℕ), (1 : ℚ))).2 = 0)
    (fun txs prices ser _ => forceFirst_headZero ser)
    pd stocks none [] res (by intro t ht; exact absurd ht (by simp))
    (by intro cr hcr; exact absurd hcr (by simp)) h
  exact hall (code, rec) hmem hne

/-- Single-instrument concrete run: one buy of 100 units at 10 on day 0,
prices 10 then 11. -/
def stocksA : List (String × List Transaction) :=
  [("0001", [⟨0, TxType.buy, 100, 10⟩])]

/-- Price data for `stocksA`. -/
def pdA : String → Option Series :=
  fun c => if c = "0001" then some [(0, 10), (1, 11)] else none

/-- The record the reconstructor produces on `stocksA` and `pdA`. -/
def recA : Record :=
  ⟨10, 11, 10, 100, 0, [(0, 0), (1, 10)], 100⟩

lemma calcPerf_stocksA : calcPerf stocksA pdA = Except.ok [("0001", recA)] := by
  norm_num [calcPerf, calcPerfGo, processStock, buildSeries, entryPricesOf,
    firstBuyDateOpt, isBuy, forceFirst, weightedAvgCost, finalUnits,
    currentPctChange, positionAt, txUpTo, sortByDate, insertByDate, replay,
    applyTx, clampRet, safeDiv, stocksA, pdA, recA, List.getLastD,
    List.filter]

/-- Witness for C3 at the concrete single-buy run. -/
theorem C3_first_point_zero_witness :
    (recA.historical.headD ((0 : ℕ), (1 : ℚ))).2 = 0 := by
  refine C3_first_point_zero stocksA pdA [("0001", recA)] "0001" recA
    calcPerf_stocksA ?_ ?_
  · simp
  · simp [recA]

/-- C4: (1) every trajectory point of every produced record lies in the
clamp range `[-100, 1000]`; (2) every point emitted by the per-date loop
either belongs to a date on which the replayed position has strictly
positive units (where the clamped return formula is used) or carries the
value `0.0`. -/
theorem C4_clamp_bounds :
    (∀ (stocks : List (String × List Transaction))
      (pd : String → Option Series) (res : List (String × Record))
      (code : String) (rec : Record) (dp : ℕ × ℚ),
      calcPerf stocks pd = Except.ok res → (code, rec) ∈ res →
      dp ∈ rec.historical → -100 ≤ dp.2 ∧ dp.2 ≤ 1000) ∧
    (∀ (txs : List Transaction) (dates ser : Series) (dp : ℕ × ℚ),
      buildSeries txs [] dates = some ser → dp ∈ ser →
      0 < (positionAt txs dp.1).2 ∨ dp.2 = 0) := by
  constructor
  · intro stocks pd res code rec dp h hmem hdp
    have hall := calcPerfGo_preserves
      (fun s => ∀ q ∈ s, -100 ≤ q.2 ∧ q.2 ≤ 1000)
      (fun txs prices ser hser => forceFirst_inRange ser
        (buildSeries_inRange txs (entryPricesOf txs prices) [] ser hser
          (by intro q hq; exact absurd hq (by simp))))
      pd stocks none [] res (by intro t ht; exact absurd ht (by simp))
      (by intro cr hcr; exact absurd hcr (by simp)) h
    exact hall (code, rec) hmem dp hdp
  · intro txs dates ser dp h hdp
    exact buildSeries_unitsOrZero txs dates [] ser h
      (by intro q hq; exact absurd hq (by simp)) dp hdp

/-- Concrete run where the raw return (4900 percent) is clamped to 1000
in the trajectory: buy 100 units at 1, price jumps to 50. -/
def stocksB : List (String × List Transaction) :=
  [("0002", [⟨0, TxType.buy, 100, 1⟩])]

/-- Price data for `stocksB`. -/
def pdB : String → Option Series :=
  fun c => if c = "0002" then some [(0, 1), (1, 50)] else none

/-- The record the reconstructor produces on `stocksB` and `pdB`: the
trajectory point on day 1 is clamped to 1000 while `pct_change` keeps
the raw 4900. -/
def recB : Record :=
  ⟨1, 50, 4900, 100, 0, [(0, 0), (1, 1000)], 4900⟩

lemma calcPerf_stocksB : calcPerf stocksB pdB = Except.ok [("0002", recB)] := by
  norm_num [calcPerf, calcPerfGo, processStock, buildSeries, entryPricesOf,
    firstBuyDateOpt, isBuy, forceFirst, weightedAvgCost, finalUnits,
    currentPctChange, positionAt, txUpTo, sortByDate, insertByDate, replay,
    applyTx, clampRet, safeDiv, stocksB, pdB, recB, List.getLastD,
    List.filter]

/-- Witness for C4 at the concrete clamped run: the point `(1, 1000)` of
the produced trajectory satisfies the bounds, and a point of a freshly
built series sits on a positive-units date. -/
theorem C4_clamp_bounds_witness :
    (-100 ≤ (1000 : ℚ) ∧ (1000 : ℚ) ≤ 1000) ∧
    (0 < (positionAt [⟨0, TxType.buy, 100, 1⟩] (1 : ℕ)).2 ∨ (1000 : ℚ) = 0) := by
  constructor
  · exact C4_clamp_bounds.1 stocksB pdB [("0002", recB)] "0002" recB
      ((1 : ℕ), (1000 : ℚ)) calcPerf_stocksB (by simp) (by simp [recB])
  · have h : buildSeries [⟨0, TxType.buy, 100, 1⟩] [] [(0, 1), (1, 50)] =
        some [(0, 0), (1, 1000)] := by
      norm_num [buildSeries, positionAt, txUpTo, sortByDate, insertByDate,
        replay, applyTx, clampRet, safeDiv, List.filter]
    exact C4_clamp_bounds.2 [⟨0, TxType.buy, 100, 1⟩] [(0, 1), (1, 50)]
      [(0, 0), (1, 1000)] ((1 : ℕ), (1000 : ℚ)) h (by simp)

/-! ### Inversion of a successful per-instrument run -/

/-- When `processStock` produces a record, its scalar fields are exactly
the guarded formulas of lines 266-284, and its entry date is the date of
the first buy row in input order. -/
lemma processStock_ok_some (carried : Option Series) (txs : List Transaction)
    (prices : Series) (rec : Record) (c : Option Series)
    (h : processStock carried txs prices = Except.ok (some rec, c)) :
    firstBuyDateOpt txs = some rec.entry_date ∧
    rec.current_price = (prices.getLastD (0, 0)).2 ∧
    rec.pct_change = currentPctChange txs ((prices.getLastD (0, 0)).2) ∧
    rec.entry_price = weightedAvgCost txs ∧
    rec.units = finalUnits txs ∧
    rec.unrealized_pnl =
      ((prices.getLastD (0, 0)).2 - weightedAvgCost txs) * finalUnits txs := by
  unfold processStock at h
  split at h
  · injection h with h'
    injection h' with h1 h2
    exact absurd h1 (by simp)
  · split at h
    · injection h with h'
      injection h' with h1 h2
      exact absurd h1 (by simp)
    · next entryDate heq =>
      split at h
      · injection h with h'
        injection h' with h1 h2
        exact absurd h1 (by simp)
      · split at h
        · exact absurd h (by simp)
        · next ser hser =>
          split at h
          · exact absurd h (by simp)
          · next traj htraj =>
            injection h with h'
            injection h' with h1 h2
            have hrec := Option.some.inj h1
            rw [← hrec]
            exact ⟨heq, rfl, rfl, rfl, rfl, rfl⟩

/-! ### C5: current price and unclamped current percentage change -/

/-- Transactions of the concrete C5 run. -/
def txsC : List Transaction := [⟨0, TxType.buy, 100, 1⟩]

/-- Prices of the concrete C5 run. -/
def pricesC : Series := [(0, 1), (1, 50)]

/-- C5: every produced record carries the last point of the full price
series as `current_price` and the guarded, UNclamped formula as
`pct_change`; on the concrete run `txsC`/`pricesC` that value is 4900,
outside the `[-100, 1000]` clamp range. -/
theorem C5_current_price_pct :
    (∀ (carried : Option Series) (txs : List Transaction) (prices : Series)
      (rec : Record) (c : Option Series),
      processStock carried txs prices = Except.ok (some rec, c) →
      rec.current_price = (prices.getLastD (0, 0)).2 ∧
      rec.pct_change = (if 0 < weightedAvgCost txs then
        ((prices.getLastD (0, 0)).2 - weightedAvgCost txs) / weightedAvgCost txs
          * 100
        else 0)) ∧
    (recordPct (processStock none txsC pricesC) = some 4900 ∧
      (1000 : ℚ) < 4900) := by
  constructor
  · intro carried txs prices rec c h
    have hinv := processStock_ok_some carried txs prices rec c h
    exact ⟨hinv.2.1, hinv.2.2.1⟩
  · constructor
    · norm_num [recordPct, processStock, buildSeries, entryPricesOf,
        firstBuyDateOpt, isBuy, forceFirst, weightedAvgCost, finalUnits,
        currentPctChange, positionAt, txUpTo, sortByDate, insertByDate,
        replay, applyTx, clampRet, safeDiv, txsC, pricesC, List.getLastD,
        List.filter]
    · norm_num

/-- The record produced on the concrete C5 run. -/
def recC : Record :=
  ⟨1, 50, 4900, 100, 0, [(0, 0), (1, 1000)], 4900⟩

lemma processStock_txsC :
    processStock none txsC pricesC =
      Except.ok (some recC, some [(0, 0), (1, 1000)]) := by
  norm_num [processStock, buildSeries, entryPricesOf, firstBuyDateOpt, isBuy,
    forceFirst, weightedAvgCost, finalUnits, currentPctChange, positionAt,
    txUpTo, sortByDate, insertByDate, replay, applyTx, clampRet, safeDiv,
    txsC, pricesC, recC, List.getLastD, List.filter]

/-- Witness for C5: the general field characterization evaluated on the
concrete run. -/
theorem C5_current_price_pct_witness :
    recC.current_price = (pricesC.getLastD (0, 0)).2 ∧
    recC.pct_change = (if 0 < weightedAvgCost txsC then
      ((pricesC.getLastD (0, 0)).2 - weightedAvgCost txsC) / weightedAvgCost txsC
        * 100
      else 0) :=
  C5_current_price_pct.1 none txsC pricesC recC (some [(0, 0), (1, 1000)])
    processStock_txsC

/-! ### C7: the entry date is the first input-order buy, not the
chronological minimum -/

/-- Two buys supplied OUT of chronological order: day 5 first, day 1
second. -/
def txs7 : List Transaction :=
  [⟨5, TxType.buy, 100, 10⟩, ⟨1, TxType.buy, 100, 10⟩]

/-- Prices for the out-of-order run. -/
def prices7 : Series := [(1, 10), (5, 10), (6, 11)]

/-- C7 counterexample: with the buy rows out of chronological order the
produced record's `entry_date` is 5 (the first row in input order) while
the chronologically earliest buy date is 1. -/
theorem C7_counterexample_unsorted_input :
    recordEntry (processStock none txs7 prices7) = some 5 ∧
    minBuyDate txs7 = some 1 ∧ (5 : ℕ) ≠ 1 := by
  refine ⟨?_, ?_, by norm_num⟩
  · norm_num [recordEntry, processStock, buildSeries, entryPricesOf,
      firstBuyDateOpt, isBuy, forceFirst, weightedAvgCost, finalUnits,
      currentPctChange, positionAt, txUpTo, sortByDate, insertByDate, replay,
      applyTx, clampRet, safeDiv, txs7, prices7, List.getLastD, List.filter]
  · norm_num [minBuyDate, isBuy, txs7, List.filter]

lemma foldl_min_head (ds : List ℕ) :
    ∀ d : ℕ, (∀ e ∈ ds, d ≤ e) → ds.foldl Nat.min d = d := by
  induction ds with
  | nil => intro d _; rfl
  | cons e es ih =>
    intro d h
    simp only [List.foldl_cons]
    have hde : Nat.min d e = d := Nat.min_eq_left (h e (List.mem_cons_self e es))
    rw [hde]
    exact ih d (fun x hx => h x (List.mem_cons_of_mem e hx))

/-- C7 (amended): the `entry_date` of every produced record is the date
of the first Buy row in input order; it coincides with the
chronologically earliest buy date whenever the buy rows happen to appear
in chronological order. -/
theorem C7_amended_entry_first_input_buy (carried : Option Series)
    (txs : List Transaction) (prices : Series) (rec : Record)
    (c : Option Series)
    (h : processStock carried txs prices = Except.ok (some rec, c)) :
    firstBuyDateOpt txs = some rec.entry_date ∧
    (List.Pairwise (fun a b => a ≤ b) ((txs.filter isBuy).map Transaction.date) →
      minBuyDate txs = some rec.entry_date) := by
  have hfb := (processStock_ok_some carried txs prices rec c h).1
  refine ⟨hfb, fun hsorted => ?_⟩
  unfold firstBuyDateOpt at hfb
  unfold minBuyDate
  cases hfil : (txs.filter isBuy) with
  | nil => rw [hfil] at hfb; exact absurd hfb (by simp)
  | cons t ts =>
    rw [hfil] at hfb
    simp only [List.head?_cons, Option.map_some] at hfb
    rw [hfil] at hsorted
    simp only [List.map_cons]
    rw [List.map_cons] at hsorted
    have hle : ∀ e ∈ ts.map Transaction.date, t.date ≤ e :=
      (List.pairwise_cons.mp hsorted).1
    rw [foldl_min_head (ts.map Transaction.date) t.date hle]
    exact congrArg some (Option.some.inj hfb)

/-- Chronologically ordered buys for the C7 witness. -/
def txs7w : List Transaction :=
  [⟨1, TxType.buy, 100, 10⟩, ⟨5, TxType.buy, 100, 10⟩]

/-- Prices for the C7 witness run. -/
def prices7w : Series := [(1, 10), (6, 11)]

/-- The record produced on the C7 witness run. -/
def rec7w : Record :=
  ⟨10, 11, 10, 200, 1, [(1, 0), (6, 10)], 200⟩

lemma processStock_txs7w :
    processStock none txs7w prices7w =
      Except.ok (some rec7w, some [(1, 0), (6, 10)]) := by
  norm_num [processStock, buildSeries, entryPricesOf, firstBuyDateOpt, isBuy,
    forceFirst, weightedAvgCost, finalUnits, currentPctChange, positionAt,
    txUpTo, sortByDate, insertByDate, replay, applyTx, clampRet, safeDiv,
    txs7w, prices7w, rec7w, List.getLastD, List.filter]

/-- Witness for the amended C7 on chronologically ordered input. -/
theorem C7_amended_witness :
    firstBuyDateOpt txs7w = some 1 ∧ minBuyDate txs7w = some 1 := by
  have h := C7_amended_entry_first_input_buy none txs7w prices7w rec7w
    (some [(1, 0), (6, 10)]) processStock_txs7w
  have hp : List.Pairwise (fun a b => a ≤ b)
      ((txs7w.filter isBuy).map Transaction.date) := by
    norm_num [txs7w, isBuy, List.filter]
  exact ⟨h.1, h.2 hp⟩

/-! ### C9: determinism -/

/-- C9: the reconstructor is a pure function of its two inputs — two
runs on equal transaction maps and equal price data give equal outputs
(there is no hidden state and no clock dependence in the embedding,
which translates every step of `calculate_performance_from_entries`). -/
theorem C9_deterministic (s1 s2 : List (String × List Transaction))
    (pd1 pd2 : String → Option Series)
    (h1 : s1 = s2) (h2 : pd1 = pd2) :
    calcPerf s1 pd1 = calcPerf s2 pd2 := by
  rw [h1, h2]

/-- Witness for C9 at the concrete single-buy run. -/
theorem C9_deterministic_witness : calcPerf stocksA pdA = calcPerf stocksA pdA :=
  C9_deterministic stocksA stocksA pdA pdA rfl rfl

/-! ### C10: empty own series means stale trajectory or NameError -/

/-- C10: when an instrument passes all preconditions (non-empty prices,
non-empty transactions, a buy row, price points on or after the entry
date) but the per-date loop appends nothing (units never positive), the
instrument is NOT skipped: with no previously assigned `pct_changes` the
run raises `NameError`; with a leftover `pct_changes` from an earlier
instrument, the record is built with that stale trajectory — and the
whole loop returns the error rather than a partial mapping in the former
case. -/
theorem C10_stale_trajectory_or_name_error (txs : List Transaction)
    (prices : Series) (t : Series) (d : ℕ)
    (hpe : prices.isEmpty = false) (htx : txs.isEmpty = false)
    (hfb : firstBuyDateOpt txs = some d)
    (hep : (entryPricesOf txs prices).isEmpty = false)
    (hbs : buildSeries txs [] (entryPricesOf txs prices) = some []) :
    processStock none txs prices = Except.error PyError.nameError ∧
    recordTraj (processStock (some t) txs prices) = some t ∧
    (∀ (pdm : String → Option Series) (code : String)
      (acc : List (String × Record)) (rest : List (String × List Transaction)),
      pdm code = some prices →
      calcPerfGo pdm none acc ((code, txs) :: rest) =
        Except.error PyError.nameError) := by
  have h1 : processStock none txs prices = Except.error PyError.nameError := by
    simp [processStock, hpe, htx, hfb, hep, hbs]
  refine ⟨h1, ?_, ?_⟩
  · have h2 : processStock (some t) txs prices =
        Except.ok (some {
          entry_price := weightedAvgCost txs
          current_price := (prices.getLastD (0, 0)).2
          pct_change := currentPctChange txs (prices.getLastD (0, 0)).2
          units := finalUnits txs
          entry_date := d
          historical := t
          unrealized_pnl :=
            ((prices.getLastD (0, 0)).2 - weightedAvgCost txs)
              * finalUnits txs }, some t) := by
      simp [processStock, hpe, htx, hfb, hep, hbs]
    rw [h2]
    rfl
  · intro pdm code acc rest hpdm
    simp [calcPerfGo, hpdm, h1]

/-- Transactions of the concrete C10 run: the first input-order buy is
dated 5, an earlier oversell history drives the replayed units negative
on every date from day 5 onwards. -/
def txs10 : List Transaction :=
  [⟨5, TxType.buy, 1, 1⟩, ⟨0, TxType.buy, 10, 1⟩, ⟨1, TxType.sell, 20, 1⟩]

/-- Prices of the concrete C10 run. -/
def prices10 : Series := [(5, 3), (6, 4)]

/-- A leftover trajectory from an earlier instrument. -/
def t10 : Series := [(0, 0)]

/-- Witness for C10 on the concrete run: NameError with no leftover
trajectory, stale trajectory otherwise. -/
theorem C10_witness :
    processStock none txs10 prices10 = Except.error PyError.nameError ∧
    recordTraj (processStock (some t10) txs10 prices10) = some t10 := by
  have hbs : buildSeries txs10 [] (entryPricesOf txs10 prices10) = some [] := by
    norm_num [buildSeries, entryPricesOf, firstBuyDateOpt, isBuy, positionAt,
      txUpTo, sortByDate, insertByDate, replay, applyTx, clampRet, safeDiv,
      txs10, prices10, List.filter]
  have h := C10_stale_trajectory_or_name_error txs10 prices10 t10 5
    (by rfl) (by rfl) (by rfl)
    (by norm_num [entryPricesOf, firstBuyDateOpt, isBuy, txs10, prices10,
      List.filter])
    hbs
  exact ⟨h.1, h.2.1⟩

end StockAnalysis
